import Mathlib

/-!
Verification development for the training orchestrator in `spacy/cli/train.py`.

The pure selection logic (`_get_metrics`, `_find_best`, `_collate_best_model`)
is embedded directly: JSON accuracy records become association lists from
metric names to rational scores (Python floats are modelled as rationals,
which preserves ordering and equality of the decimal literals involved),
directory listings become lists of `DirEntry`, and Python exceptions become
`Except PyErr`.  The stateful control flow of `train` (the epoch loop, the
`with nlp.use_params` / `Model.use_device` scopes, the `try/finally` around
the loop) is embedded as an explicit trace of effect events.
-/

set_option linter.unusedVariables false

abbrev Score : Type := ℚ

/-- An accuracy record: the parsed contents of an `accuracy.json` / the
`scorer.scores` dict — metric name to float score. -/
abbrev AccRecord : Type := List (String × Score)

/-- Python dict read access `d.get(k)` / `d[k]`: the binding for a key
(association lists here always carry at most one binding per key). -/
def lookupAssoc {β : Type} : List (String × β) → String → Option β
  | [], _ => none
  | (k', v) :: rest, k => if k' == k then some v else lookupAssoc rest k

/-- Python dict assignment `d[k] = v`: replace the binding if the key is
present, append it otherwise. -/
def setAssoc {β : Type} : List (String × β) → String → β → List (String × β)
  | [], k, v => [(k, v)]
  | (k', v') :: rest, k, v =>
    if k' == k then (k, v) :: rest else (k', v') :: setAssoc rest k v

/-- Python `accs.get(metric, 0.0)`. -/
def getMetric (rec : AccRecord) (m : String) : Score :=
  (lookupAssoc rec m).getD 0

/-- Source `_get_metrics`: the fixed ranking-metric tuple of a component. -/
def get_metrics (component : String) : List String :=
  if component == "parser" then ["las", "uas", "token_acc"]
  else if component == "tagger" then ["tags_acc"]
  else if component == "ner" then ["ents_f", "ents_p", "ents_r"]
  else ["token_acc"]

/-- Python `==` on lists of floats (elementwise). -/
def pyListEq : List Score → List Score → Bool
  | [], [] => true
  | a :: as, b :: bs => a == b && pyListEq as bs
  | _, _ => false

/-- Python `<` on sequences over a linearly ordered element type:
lexicographic, a strict prefix is smaller.  This is the single comparison
Python uses both for lists of floats and (elementwise on code points) for
strings. -/
def lexLt {α : Type} [LinearOrder α] : List α → List α → Bool
  | _, [] => false
  | [], _ :: _ => true
  | a :: as, b :: bs => if a < b then true else if b < a then false else lexLt as bs

/-- Python `<` on lists of floats. -/
def pyListLt (a b : List Score) : Bool :=
  lexLt a b

/-- Python `<` on strings: lexicographic by Unicode code point. -/
def pyStrLt (s t : String) : Bool :=
  lexLt s.data t.data

/-- Python `<` on the `(scores, epoch_model)` pairs that `_find_best` feeds to
`max`: compare the score lists; on equality fall through to the filesystem
location (all locations share the prefix `output_path/`, so comparing the
`pathlib` paths is comparing the final `model<i>` names). -/
def pyPairLt (x y : List Score × String) : Bool :=
  if pyListEq x.1 y.1 then pyStrLt x.2 y.2 else pyListLt x.1 y.1

/-- One comparison step of Python `max`: keep the current maximum, replace it
only on a strictly greater element. -/
def pyMaxStep {α : Type} (lt : α → α → Bool) (best y : α) : α :=
  if lt best y then y else best

/-- Python `max(l)`: fold `pyMaxStep` over the list (the first maximal
element wins exact ties). -/
def pyMax {α : Type} (lt : α → α → Bool) : List α → Option α
  | [] => none
  | x :: xs => some (xs.foldl (pyMaxStep lt) x)

/-- One entry of `experiment_dir.iterdir()`: its final name, whether it is a
directory, and the parsed contents of its `accuracy.json` (if that file
exists). -/
structure DirEntry where
  name : String
  isDir : Bool
  accuracy : Option AccRecord
deriving DecidableEq

/-- The Python exceptions the embedded code can raise. -/
inductive PyErr
  | fileNotFound
  | keyError
  | typeError
  | valueError
  | epochError
deriving DecidableEq

/-- Effectful `map` over a list, stopping at the first raised exception
(a Python `for` loop building a list). -/
def mapE {α β : Type} (f : α → Except PyErr β) : List α → Except PyErr (List β)
  | [] => .ok []
  | a :: as =>
    match f a with
    | .error e => .error e
    | .ok b =>
      match mapE f as with
      | .error e => .error e
      | .ok bs => .ok (b :: bs)

/-- Effectful fold over a list, stopping at the first raised exception
(a Python `for` loop updating state). -/
def foldE {σ α : Type} (f : σ → α → Except PyErr σ) : σ → List α → Except PyErr σ
  | s, [] => .ok s
  | s, a :: as =>
    match f s a with
    | .error e => .error e
    | .ok s' => foldE f s' as

/-- The directory entries `_find_best` considers: directories whose final name
is not `model-final`. -/
def epochDirs (entries : List DirEntry) : List DirEntry :=
  entries.filter (fun e => e.isDir && e.name != "model-final")

/-- The `scores` list `_find_best` builds for one epoch:
`[accs.get(metric, 0.0) for metric in _get_metrics(component)]`. -/
def scoreTuple (component : String) (rec : AccRecord) : List Score :=
  (get_metrics component).map (fun m => getMetric rec m)

/-- One iteration of `_find_best`'s loop body: open the epoch's
`accuracy.json` (raising if the file is missing) and build the
`(scores, epoch_model)` pair. -/
def readCandidate (component : String) (e : DirEntry) :
    Except PyErr (List Score × String) :=
  match e.accuracy with
  | none => .error .fileNotFound
  | some rec => .ok (scoreTuple component rec, e.name)

/-- The `accuracies` list `_find_best` accumulates. -/
def candidates (entries : List DirEntry) (component : String) :
    Except PyErr (List (List Score × String)) :=
  mapE (readCandidate component) (epochDirs entries)

/-- Source `_find_best`: the location of the maximal `(scores, location)`
pair, or `None` when there are no candidates. -/
def find_best (entries : List DirEntry) (component : String) :
    Except PyErr (Option String) :=
  match candidates entries component with
  | .error e => .error e
  | .ok accuracies =>
    match pyMax pyPairLt accuracies with
    | some best => .ok (some best.2)
    | none => .ok none

/-- Re-opening `best_component_src / 'accuracy.json'` in
`_collate_best_model`: the accuracy record of the entry with that name. -/
def entryAcc (entries : List DirEntry) (loc : String) : Option AccRecord :=
  match entries.find? (fun e => e.name == loc) with
  | some e => e.accuracy
  | none => none

/-- Reading `accs[metric]` in `_collate_best_model`: a missing key raises
`KeyError`. -/
def readMetric (accs : AccRecord) (m : String) : Except PyErr (String × Score) :=
  match lookupAssoc accs m with
  | some v => .ok (m, v)
  | none => .error .keyError

/-- One iteration of the `for component, best_component_src in bests.items()`
loop of `_collate_best_model`.  State: the composite `meta['accuracy']` dict
and, per component, the location whose sub-state `model-best` carries.
A `None` winner raises (`None / component` is a `TypeError`). -/
def collateStep (entries : List DirEntry)
    (st : AccRecord × List (String × String)) (cb : String × Option String) :
    Except PyErr (AccRecord × List (String × String)) :=
  match cb.2 with
  | none => .error .typeError
  | some loc =>
    match entryAcc entries loc with
    | none => .error .fileNotFound
    | some accs =>
      match mapE (readMetric accs) (get_metrics cb.1) with
      | .error e => .error e
      | .ok vals =>
        .ok (vals.foldl (fun a p => setAssoc a p.1 p.2) st.1, setAssoc st.2 cb.1 loc)

/-- One entry of the `bests` dict of `_collate_best_model`: the component
paired with its tournament winner. -/
def bestOf (entries : List DirEntry) (c : String) :
    Except PyErr (String × Option String) :=
  match find_best entries c with
  | .error e => .error e
  | .ok b => .ok (c, b)

/-- Source `_collate_best_model`: run the per-component tournament, copy
`model-final` to `model-best` (every component initially sourced from
`model-final`), then per component replace its sub-state with the winner's and
merge the winner's own ranking metrics into `meta['accuracy']`. -/
def collate_best_model (metaAcc : AccRecord) (entries : List DirEntry)
    (components : List String) :
    Except PyErr (AccRecord × List (String × String)) :=
  match mapE (bestOf entries) components with
  | .error e => .error e
  | .ok bests =>
    foldE (collateStep entries) (metaAcc, components.map (fun c => (c, "model-final"))) bests

deriving instance DecidableEq for Except

/-! ### Trace model of the `train` control flow

The orchestration inside `train` is stateful (filesystem writes, the
`set_env_log` global, the `use_params` and `use_device` scopes).  It is
embedded as a function that, given the configuration and an oracle describing
how each epoch behaves (completes, or raises at a given step), produces the
ordered list of effect events plus the propagated exception, if any. -/

/-- The two compute backends (`Model.use_device`). -/
inductive Backend
  | cpu
  | gpu
deriving DecidableEq

/-- One observable effect of `train`. -/
inductive Event
  | envLog (b : Bool)
  | enterAvg
  | exitAvg
  | toDisk (loc : String)
  | loadModel (loc : String) (backend : Backend)
  | devDocs (backend : Backend)
  | pyEval (backend : Backend)
  | writeAcc (loc : String)
  | writeMeta (loc : String) (speed : Option Score × Option Score)
  | epochTrain (i : Nat)
  | countWords
  | beginTraining
  | addMultitask (pipe obj : String)
  | collateBest
deriving DecidableEq

/-- The steps inside the per-epoch `with nlp.use_params(...)` block at which
an exception may be raised. -/
inductive CkStage
  | save
  | load
  | devMat
  | evalDev
  | cpuLoad
  | cpuDevMat
  | cpuEvalDev
  | accWrite
  | metaWrite
deriving DecidableEq

/-- The configuration of one `train` invocation (the arguments the embedded
control flow depends on; `pipeline` is already split on commas). -/
structure TrainConfig where
  pipeline : List String
  parser_multitasks : String
  entity_multitasks : String
  n_iter : Nat
  use_gpu : Int
  verbose : Bool
deriving DecidableEq

/-- The steps of the checkpoint/evaluate block for epoch `i`, in source
order, each with the events it emits on completion.  `t1` is the
words-per-second number of the evaluation that fills `cpu_wps`, `t2` the one
that fills `gpu_wps` (timing itself is oracle data).  When `use_gpu < 0`
there is a single evaluation on the baseline backend and
`meta['speed'] = {cpu: t1, gpu: None}`; otherwise the first evaluation runs
on the accelerated backend, the pipeline is reloaded under
`Model.use_device('cpu')` and re-evaluated, and both numbers are recorded. -/
def ckSteps (cfg : TrainConfig) (i : Nat) (t1 t2 : Score) :
    List (CkStage × List Event) :=
  let loc := "model" ++ toString i
  let active := if cfg.use_gpu < 0 then Backend.cpu else Backend.gpu
  let speed : Option Score × Option Score :=
    if cfg.use_gpu < 0 then (some t1, none) else (some t1, some t2)
  [(CkStage.save, [Event.toDisk loc]),
   (CkStage.load, [Event.loadModel loc active]),
   (CkStage.devMat, [Event.devDocs active]),
   (CkStage.evalDev, [Event.pyEval active])]
  ++ (if cfg.use_gpu < 0 then []
      else [(CkStage.cpuLoad, [Event.loadModel loc Backend.cpu]),
            (CkStage.cpuDevMat, [Event.devDocs Backend.cpu]),
            (CkStage.cpuEvalDev, [Event.pyEval Backend.cpu])])
  ++ [(CkStage.accWrite, [Event.writeAcc loc]),
      (CkStage.metaWrite, [Event.writeMeta loc speed])]

/-- The `with nlp.use_params(optimizer.averages):` block of one epoch:
enter the averaged-parameter scope, lower the env log, run the checkpoint
steps (all of them, or those before the step named by `fail`, which raises),
restore the env log only when nothing raised (the plain
`util.set_env_log(verbose)` statement at the end of the block), and exit the
scope unconditionally (the `with` statement).  Returns the events and
whether an exception is propagating. -/
def checkpoint (cfg : TrainConfig) (i : Nat) (t1 t2 : Score)
    (fail : Option CkStage) : List Event × Bool :=
  let steps := ckSteps cfg i t1 t2
  let body :=
    match fail with
    | none => (steps.map (fun s => s.2)).flatten
    | some s => ((steps.takeWhile (fun p => p.1 ≠ s)).map (fun s => s.2)).flatten
  let restore :=
    match fail with
    | none => [Event.envLog cfg.verbose]
    | some _ => []
  ([Event.enterAvg, Event.envLog false] ++ body ++ restore ++ [Event.exitAvg],
   fail.isSome)

/-- How one epoch behaves: the batch-update pass raises, or it completes and
the checkpoint block runs (raising at `fail`, if given, with the oracle
throughput numbers `t1`, `t2`). -/
inductive EpochBehavior
  | trainRaise
  | ck (t1 t2 : Score) (fail : Option CkStage)

/-- Whether an epoch behavior ends in an exception. -/
def raisesB : EpochBehavior → Bool
  | .trainRaise => true
  | .ck _ _ fail => fail.isSome

/-- The events of one iteration of the epoch loop. -/
def epochEvents (cfg : TrainConfig) (i : Nat) : EpochBehavior → List Event × Bool
  | .trainRaise => ([], true)
  | .ck t1 t2 fail =>
    let ck := checkpoint cfg i t1 t2 fail
    (Event.epochTrain i :: ck.1, ck.2)

/-- The epoch loop over the listed iteration indices: stops at the first
epoch whose work raises. -/
def loopFrom (cfg : TrainConfig) (beh : Nat → EpochBehavior) :
    List Nat → List Event × Bool
  | [] => ([], false)
  | i :: rest =>
    let e := epochEvents cfg i (beh i)
    if e.2 then (e.1, true)
    else
      let r := loopFrom cfg beh rest
      (e.1 ++ r.1, r.2)

/-- Python `s.split(',')` on the remaining code points, with the (reversed)
current chunk as accumulator. -/
def splitCommaAux (cur : List Char) : List Char → List String
  | [] => [⟨cur.reverse⟩]
  | c :: rest =>
    if c = ',' then ⟨cur.reverse⟩ :: splitCommaAux [] rest
    else splitCommaAux (c :: cur) rest

/-- Python `s.split(',')`. -/
def pySplitComma (s : String) : List String :=
  splitCommaAux [] s.data

/-- The multitask-objective registration loop:
`for pipe_name, multitasks in [('parser', ...), ('ner', ...)]` — a non-empty
objective list for a component missing from `pipeline` raises `ValueError`;
otherwise each comma-separated objective is registered on the component. -/
def registerMt (pipeline : List String) (pipeName mt : String) :
    Except PyErr (List Event) :=
  if mt = "" then .ok []
  else if pipeName ∈ pipeline then
    .ok ((pySplitComma mt).map (fun o => Event.addMultitask pipeName o))
  else .error .valueError

/-- Both multitask registrations, in source order (parser first), with the
events already emitted when the second one raises. -/
def multitaskPhase (cfg : TrainConfig) : List Event × Option PyErr :=
  match registerMt cfg.pipeline "parser" cfg.parser_multitasks with
  | .error e => ([], some e)
  | .ok ev1 =>
    match registerMt cfg.pipeline "ner" cfg.entity_multitasks with
    | .error e => (ev1, some e)
    | .ok ev2 => (ev1 ++ ev2, none)

/-- The control flow of `train` from the multitask check onward: multitask
registration (raising before any training work), corpus word counting,
`begin_training`, the epoch loop wrapped in `try/finally` whose `finally`
saves `model-final` under the averaged parameters, and — only when the loop
completed normally — the call to `_collate_best_model` (which creates
`model-best`). -/
def trainRun (cfg : TrainConfig) (beh : Nat → EpochBehavior) :
    List Event × Option PyErr :=
  match (multitaskPhase cfg).2 with
  | some e => ((multitaskPhase cfg).1, some e)
  | none =>
    if (loopFrom cfg beh (List.range cfg.n_iter)).2 then
      ((multitaskPhase cfg).1 ++ [Event.countWords, Event.beginTraining] ++
        (loopFrom cfg beh (List.range cfg.n_iter)).1 ++
        [Event.enterAvg, Event.toDisk "model-final", Event.exitAvg],
       some .epochError)
    else
      ((multitaskPhase cfg).1 ++ [Event.countWords, Event.beginTraining] ++
        (loopFrom cfg beh (List.range cfg.n_iter)).1 ++
        [Event.enterAvg, Event.toDisk "model-final", Event.exitAvg] ++
        [Event.collateBest],
       none)

/-- The most recent value passed to `util.set_env_log` in a trace. -/
def lastEnvLog : List Event → Option Bool
  | [] => none
  | e :: rest =>
    match lastEnvLog rest with
    | some b => some b
    | none =>
      match e with
      | .envLog b => some b
      | _ => none

/-- The `meta['speed']` records written in a trace, in order. -/
def writtenSpeeds (evs : List Event) : List (Option Score × Option Score) :=
  evs.filterMap (fun e =>
    match e with
    | .writeMeta _ s => some s
    | _ => none)

/-- The model-load events of a trace, in order. -/
def loadsOf (evs : List Event) : List Event :=
  evs.filter (fun e =>
    match e with
    | .loadModel _ _ => true
    | _ => false)

/-- The evaluation events of a trace, in order. -/
def evalsOf (evs : List Event) : List Event :=
  evs.filter (fun e =>
    match e with
    | .pyEval _ => true
    | _ => false)

/-- Events that can appear in the body of a checkpoint step (filesystem and
evaluation effects; in particular not `envLog`, not scope entries or exits,
and not the best-model collation). -/
def plainCk : Event → Bool
  | .toDisk _ => true
  | .loadModel _ _ => true
  | .devDocs _ => true
  | .pyEval _ => true
  | .writeAcc _ => true
  | .writeMeta _ _ => true
  | _ => false

/-! ### Minibatch partitioner

`minibatch_by_words` lives in `spacy/util.py`, which is not part of the
sources here; it is modelled from the spec. -/

/-- Modelled from the spec: the body of `minibatch_by_words` (absent from the
sources, which only call it).  Maintain an accumulator; append each incoming
item to the current batch; when the cumulative token length meets or exceeds
the current drawn target size, close the batch and draw the next target; a
final partial batch is emitted, and no batch is ever empty.  `len` gives an
item's token count and `targets` is the batch-size schedule (`targets k` is
the `k`-th drawn size). -/
def minibatchAux {α : Type} (len : α → Nat) (targets : Nat → Score) :
    Nat → List α → Nat → List α → List (List α)
  | _, acc, _, [] => if acc.isEmpty then [] else [acc]
  | k, acc, cum, x :: xs =>
    let acc' := acc ++ [x]
    let cum' := cum + len x
    if targets k ≤ (cum' : Score) then
      acc' :: minibatchAux len targets (k + 1) [] 0 xs
    else
      minibatchAux len targets k acc' cum' xs

/-- Modelled from the spec: `minibatch_by_words` on a finite item stream. -/
def minibatch_by_words {α : Type} (len : α → Nat) (targets : Nat → Score)
    (items : List α) : List (List α) :=
  minibatchAux len targets 0 [] 0 items

/-- The rational 0.80 (in lowest terms, built directly so that the kernel can
evaluate comparisons on it). -/
def score080 : Score := ⟨4, 5, by norm_num, by norm_num⟩

/-- The rational 0.91. -/
def score091 : Score := ⟨91, 100, by norm_num, by norm_num⟩

/-- The rational 0.85. -/
def score085 : Score := ⟨17, 20, by norm_num, by norm_num⟩

/-- The rational 0.5. -/
def score05 : Score := ⟨1, 2, by norm_num, by norm_num⟩

/-- The ranking metric tuples of the listed components are pairwise disjoint
(true of the standard `tagger,parser,ner` pipeline, whose tuples partition
the metric names). -/
def MetricsDisjoint (components : List String) : Prop :=
  ∀ c1 ∈ components, ∀ c2 ∈ components, c1 ≠ c2 →
    ∀ m ∈ get_metrics c1, m ∉ get_metrics c2

/-- Scenario data: the epoch-0 accuracy record, parser las 0.80. -/
def recEp0 : AccRecord :=
  [("las", score080), ("uas", score05), ("token_acc", score05),
   ("tags_acc", score05), ("ents_f", score05), ("ents_p", score05), ("ents_r", score05)]

/-- Scenario data: the epoch-1 accuracy record, parser las 0.91. -/
def recEp1 : AccRecord :=
  [("las", score091), ("uas", score05), ("token_acc", score05),
   ("tags_acc", score05), ("ents_f", score05), ("ents_p", score05), ("ents_r", score05)]

/-- Scenario data: the epoch-2 accuracy record, parser las 0.85. -/
def recEp2 : AccRecord :=
  [("las", score085), ("uas", score05), ("token_acc", score05),
   ("tags_acc", score05), ("ents_f", score05), ("ents_p", score05), ("ents_r", score05)]

/-- Scenario A: three persisted epoch directories with parser las scores
0.80, 0.91, 0.85. -/
def entriesA : List DirEntry :=
  [⟨"model0", true, some recEp0⟩, ⟨"model1", true, some recEp1⟩,
   ⟨"model2", true, some recEp2⟩]

/-- The composite `meta['accuracy']` produced by collating Scenario A. -/
def finalAccA : AccRecord :=
  [("tags_acc", score05), ("las", score091), ("uas", score05), ("token_acc", score05),
   ("ents_f", score05), ("ents_p", score05), ("ents_r", score05)]

/-- The per-component sources of `model-best` after collating Scenario A. -/
def srcsA : List (String × String) :=
  [("tagger", "model2"), ("parser", "model1"), ("ner", "model2")]

/-- A record used for exact metric ties. -/
def recTie : AccRecord := [("tags_acc", score05)]

/-- Two epoch directories with identical ranking tuples, with double-digit
epoch index 10 present. -/
def entriesTie : List DirEntry :=
  [⟨"model10", true, some recTie⟩, ⟨"model9", true, some recTie⟩]

/-- An output directory holding one epoch dir, a stale `model-best` from a
previous run (it has `meta.json` but no `accuracy.json`), and `model-final`. -/
def entriesStale : List DirEntry :=
  [⟨"model0", true, some recEp0⟩, ⟨"model-best", true, none⟩,
   ⟨"model-final", true, none⟩]

/-- Scenario B configuration: `--entity-multitasks dep` with pipeline
`tagger,parser` (no `ner`). -/
def cfgB : TrainConfig :=
  ⟨["tagger", "parser"], "", "dep", 1, -1, false⟩

/-- Scenario C configuration: a 5-epoch baseline-backend run. -/
def cfgC : TrainConfig :=
  ⟨["tagger", "parser", "ner"], "", "", 5, -1, false⟩

/-- Scenario C behavior: an exception is raised inside epoch 2 (during the
batch-update pass); earlier epochs complete. -/
def behC : Nat → EpochBehavior :=
  fun i => if i = 2 then .trainRaise else .ck 1 1 none

/-- Scenario D-like configuration with `--use-gpu 0`. -/
def cfgD : TrainConfig :=
  ⟨["tagger", "parser", "ner"], "", "", 1, 0, false⟩

/-- An epoch oracle where every epoch completes; 7 is the throughput number
recorded as `cpu_wps`, 9 the one recorded as `gpu_wps`. -/
def behOk : Nat → EpochBehavior := fun _ => .ck 7 9 none

/-- A configuration with `--verbose` set, for the env-log restoration
analysis. -/
def cfgV : TrainConfig :=
  ⟨["tagger", "parser", "ner"], "", "", 1, -1, true⟩


/-! ### Association-list lemmas -/

theorem lookupAssoc_setAssoc_self {β : Type} (l : List (String × β)) (k : String) (v : β) :
    lookupAssoc (setAssoc l k v) k = some v := by
  induction l with
  | nil => simp [setAssoc, lookupAssoc]
  | cons p rest ih =>
    obtain ⟨k', v'⟩ := p
    by_cases h : k' = k
    · subst h
      simp [setAssoc, lookupAssoc]
    · simp [setAssoc, lookupAssoc, h, ih]

theorem lookupAssoc_setAssoc_ne {β : Type} (l : List (String × β)) (k k' : String) (v : β)
    (h : k' ≠ k) :
    lookupAssoc (setAssoc l k v) k' = lookupAssoc l k' := by
  induction l with
  | nil => simp [setAssoc, lookupAssoc, Ne.symm h]
  | cons p rest ih =>
    obtain ⟨k0, v0⟩ := p
    by_cases hk : k0 = k
    · subst hk
      simp [setAssoc, lookupAssoc, Ne.symm h]
    · by_cases hk' : k0 = k'
      · subst hk'
        simp [setAssoc, lookupAssoc, hk]
      · simp [setAssoc, lookupAssoc, hk, hk', ih]

theorem lookupAssoc_foldl_set_notmem (vals : List (String × Score)) (acc : AccRecord)
    (m : String) (h : ∀ p ∈ vals, p.1 ≠ m) :
    lookupAssoc (vals.foldl (fun a p => setAssoc a p.1 p.2) acc) m = lookupAssoc acc m := by
  induction vals generalizing acc with
  | nil => rfl
  | cons p rest ih =>
    simp only [List.foldl_cons]
    rw [ih (setAssoc acc p.1 p.2) (fun q hq => h q (List.mem_cons_of_mem _ hq))]
    exact lookupAssoc_setAssoc_ne acc p.1 m p.2 (Ne.symm (h p (List.mem_cons_self _ _)))

theorem lookupAssoc_foldl_set_mem (vals : List (String × Score)) (acc : AccRecord)
    (hnd : (vals.map Prod.fst).Nodup) (m : String) (v : Score) (hmem : (m, v) ∈ vals) :
    lookupAssoc (vals.foldl (fun a p => setAssoc a p.1 p.2) acc) m = some v := by
  induction vals generalizing acc with
  | nil => simp at hmem
  | cons p rest ih =>
    simp only [List.map_cons, List.nodup_cons] at hnd
    rcases List.mem_cons.mp hmem with h | h
    · subst h
      simp only [List.foldl_cons]
      rw [lookupAssoc_foldl_set_notmem]
      · exact lookupAssoc_setAssoc_self acc m v
      · intro q hq hq1
        refine hnd.1 ?_
        show m ∈ List.map Prod.fst rest
        rw [← hq1]
        exact List.mem_map_of_mem Prod.fst hq
    · simp only [List.foldl_cons]
      exact ih (setAssoc acc p.1 p.2) hnd.2 h

/-! ### Order lemmas for the Python comparisons -/

theorem lexLt_irrefl {α : Type} [LinearOrder α] (a : List α) : lexLt a a = false := by
  induction a with
  | nil => rfl
  | cons x xs ih => simp [lexLt, lt_irrefl, ih]

theorem lexLt_trans {α : Type} [LinearOrder α] (a b c : List α)
    (h1 : lexLt a b = true) (h2 : lexLt b c = true) : lexLt a c = true := by
  induction a generalizing b c with
  | nil =>
    cases b with
    | nil => simp [lexLt] at h1
    | cons y ys =>
      cases c with
      | nil => simp [lexLt] at h2
      | cons z zs => simp [lexLt]
  | cons x xs ih =>
    cases b with
    | nil => simp [lexLt] at h1
    | cons y ys =>
      cases c with
      | nil => simp [lexLt] at h2
      | cons z zs =>
        simp only [lexLt] at h1 h2 ⊢
        rcases lt_trichotomy x y with hxy | hxy | hxy
        · rcases lt_trichotomy y z with hyz | hyz | hyz
          · simp [lt_trans hxy hyz]
          · subst hyz
            simp [hxy]
          · simp [not_lt_of_gt hyz, hyz] at h2
        · subst hxy
          rcases lt_trichotomy x z with hxz | hxz | hxz
          · simp [hxz]
          · subst hxz
            simp only [lt_irrefl, if_false] at h1 h2 ⊢
            exact ih ys zs h1 h2
          · simp [not_lt_of_gt hxz, hxz] at h2
        · simp [not_lt_of_gt hxy, hxy] at h1

theorem lexLt_eq_of_not {α : Type} [LinearOrder α] (a b : List α)
    (h1 : lexLt a b = false) (h2 : lexLt b a = false) : a = b := by
  induction a generalizing b with
  | nil =>
    cases b with
    | nil => rfl
    | cons y ys => simp [lexLt] at h1
  | cons x xs ih =>
    cases b with
    | nil => simp [lexLt] at h2
    | cons y ys =>
      simp only [lexLt] at h1 h2
      rcases lt_trichotomy x y with h | h | h
      · simp [h] at h1
      · subst h
        simp only [lt_irrefl, if_false] at h1 h2
        rw [ih ys h1 h2]
      · simp [h] at h2

theorem lexLt_cons_iff {α : Type} [LinearOrder α] (x y : α) (xs ys : List α) :
    lexLt (x :: xs) (y :: ys) = true ↔ x < y ∨ (x = y ∧ lexLt xs ys = true) := by
  simp only [lexLt]
  rcases lt_trichotomy x y with h | h | h
  · simp [h]
  · subst h
    simp [lt_irrefl]
  · simp [not_lt_of_gt h, h, (ne_of_gt h : x ≠ y)]

theorem pyListEq_iff (a b : List Score) : pyListEq a b = true ↔ a = b := by
  induction a generalizing b with
  | nil => cases b <;> simp [pyListEq]
  | cons x xs ih =>
    cases b with
    | nil => simp [pyListEq]
    | cons y ys => simp [pyListEq, ih]

theorem pyPairLt_eq (x y : List Score × String) :
    pyPairLt x y = if x.1 = y.1 then pyStrLt x.2 y.2 else pyListLt x.1 y.1 := by
  simp only [pyPairLt]
  by_cases h : x.1 = y.1
  · rw [if_pos ((pyListEq_iff _ _).mpr h), if_pos h]
  · have hf : pyListEq x.1 y.1 = false := by
      cases hq : pyListEq x.1 y.1
      · rfl
      · exact absurd ((pyListEq_iff _ _).mp hq) h
    rw [hf, if_neg h]
    simp

theorem stringData_inj (s t : String) (h : s.data = t.data) : s = t := by
  cases s with
  | mk d1 =>
    cases t with
    | mk d2 =>
      have hd : d1 = d2 := h
      rw [hd]

theorem pyPairLt_irrefl (x : List Score × String) : pyPairLt x x = false := by
  rw [pyPairLt_eq]
  simp [pyStrLt, lexLt_irrefl]

theorem pyPairLt_trans (x y z : List Score × String)
    (h1 : pyPairLt x y = true) (h2 : pyPairLt y z = true) : pyPairLt x z = true := by
  rw [pyPairLt_eq] at h1 h2 ⊢
  by_cases e1 : x.1 = y.1 <;> by_cases e2 : y.1 = z.1
  · rw [if_pos e1] at h1
    rw [if_pos e2] at h2
    rw [if_pos (e1.trans e2)]
    exact lexLt_trans _ _ _ h1 h2
  · rw [if_pos e1] at h1
    rw [if_neg e2] at h2
    have hne : x.1 ≠ z.1 := by
      rw [e1]
      exact e2
    rw [if_neg hne, e1]
    exact h2
  · rw [if_neg e1] at h1
    rw [if_pos e2] at h2
    have hne : x.1 ≠ z.1 := by
      rw [← e2]
      exact e1
    rw [if_neg hne, ← e2]
    exact h1
  · rw [if_neg e1] at h1
    rw [if_neg e2] at h2
    have h3 : pyListLt x.1 z.1 = true := lexLt_trans _ _ _ h1 h2
    have hne : x.1 ≠ z.1 := by
      intro hh
      rw [hh] at h3
      simp [pyListLt, lexLt_irrefl] at h3
    rw [if_neg hne]
    exact h3

theorem pyPairLt_connex (x y : List Score × String)
    (h1 : pyPairLt x y = false) (h2 : pyPairLt y x = false) : x = y := by
  obtain ⟨a1, a2⟩ := x
  obtain ⟨b1, b2⟩ := y
  rw [pyPairLt_eq] at h1 h2
  by_cases e : a1 = b1
  · rw [if_pos e] at h1
    rw [if_pos e.symm] at h2
    have : a2 = b2 := stringData_inj _ _ (lexLt_eq_of_not _ _ h1 h2)
    rw [e, this]
  · rw [if_neg e] at h1
    rw [if_neg (Ne.symm e)] at h2
    exact absurd (lexLt_eq_of_not _ _ h1 h2) e

/-! ### Python max lemmas -/

theorem pyFoldMax_mem {α : Type} (lt : α → α → Bool) :
    ∀ (ys : List α) (b : α), ys.foldl (pyMaxStep lt) b ∈ b :: ys := by
  intro ys
  induction ys with
  | nil =>
    intro b
    simp
  | cons z zs ih =>
    intro b
    simp only [List.foldl_cons]
    rcases List.mem_cons.mp (ih (pyMaxStep lt b z)) with h | h
    · rw [h]
      by_cases hb : lt b z = true
      · simp [pyMaxStep, hb]
      · simp [pyMaxStep, hb]
    · simp [h]

theorem pyFoldMax_not_lt {α : Type} (lt : α → α → Bool)
    (hirr : ∀ a, lt a a = false)
    (htr : ∀ a b c, lt a b = true → lt b c = true → lt a c = true)
    (hcx : ∀ a b, lt a b = false → lt b a = false → a = b) :
    ∀ (ys : List α) (b y : α), y ∈ b :: ys →
      lt (ys.foldl (pyMaxStep lt) b) y = false := by
  intro ys
  induction ys with
  | nil =>
    intro b y hy
    simp only [List.mem_cons, List.not_mem_nil, or_false] at hy
    rw [hy]
    exact hirr b
  | cons z zs ih =>
    intro b y hy
    simp only [List.foldl_cons]
    by_cases hbz : lt b z = true
    · have hstep : pyMaxStep lt b z = z := by simp [pyMaxStep, hbz]
      rw [hstep]
      rcases List.mem_cons.mp hy with hyb | hy'
      · rw [hyb]
        cases hrb : lt (zs.foldl (pyMaxStep lt) z) b with
        | false => rfl
        | true =>
          have h1 : lt (zs.foldl (pyMaxStep lt) z) z = true := htr _ _ _ hrb hbz
          have h2 := ih z z (List.mem_cons_self _ _)
          rw [h1] at h2
          exact h2
      · exact ih z y hy'
    · have hstep : pyMaxStep lt b z = b := by simp [pyMaxStep, hbz]
      rw [hstep]
      rcases List.mem_cons.mp hy with hyb | hy'
      · rw [hyb]
        exact ih b b (List.mem_cons_self _ _)
      · rcases List.mem_cons.mp hy' with hyz | hy''
        · rw [hyz]
          cases hrz : lt (zs.foldl (pyMaxStep lt) b) z with
          | false => rfl
          | true =>
            have hrb : lt (zs.foldl (pyMaxStep lt) b) b = false :=
              ih b b (List.mem_cons_self _ _)
            have hbzf : lt b z = false := by
              cases hq : lt b z
              · rfl
              · exact absurd hq hbz
            cases hbr : lt b (zs.foldl (pyMaxStep lt) b) with
            | false =>
              have heq := hcx _ _ hrb hbr
              rw [heq] at hrz
              rw [hrz] at hbzf
              exact hbzf
            | true =>
              have hbz2 : lt b z = true := htr _ _ _ hbr hrz
              rw [hbz2] at hbzf
              exact hbzf
        · exact ih b y (List.mem_cons_of_mem _ hy'')

theorem pyMax_mem {α : Type} (lt : α → α → Bool) (l : List α) (m : α)
    (h : pyMax lt l = some m) : m ∈ l := by
  cases l with
  | nil => simp [pyMax] at h
  | cons x xs =>
    simp only [pyMax, Option.some.injEq] at h
    subst h
    exact pyFoldMax_mem lt xs x

theorem pyMax_not_lt {α : Type} (lt : α → α → Bool)
    (hirr : ∀ a, lt a a = false)
    (htr : ∀ a b c, lt a b = true → lt b c = true → lt a c = true)
    (hcx : ∀ a b, lt a b = false → lt b a = false → a = b)
    (l : List α) (m : α) (h : pyMax lt l = some m) :
    ∀ y ∈ l, lt m y = false := by
  cases l with
  | nil => simp [pyMax] at h
  | cons x xs =>
    simp only [pyMax, Option.some.injEq] at h
    subst h
    intro y hy
    exact pyFoldMax_not_lt lt hirr htr hcx xs x y hy

/-! ### mapE / foldE lemmas -/

theorem mapE_ok_elem {α β : Type} (f : α → Except PyErr β) (l : List α) (r : List β)
    (h : mapE f l = .ok r) : ∀ x ∈ r, ∃ a ∈ l, f a = .ok x := by
  induction l generalizing r with
  | nil =>
    simp only [mapE, Except.ok.injEq] at h
    subst h
    simp
  | cons a as ih =>
    cases hfa : f a with
    | error e => simp [mapE, hfa] at h
    | ok b =>
      cases hm : mapE f as with
      | error e => simp [mapE, hfa, hm] at h
      | ok bs =>
        simp only [mapE, hfa, hm, Except.ok.injEq] at h
        subst h
        intro x hx
        rcases List.mem_cons.mp hx with hxb | hxs
        · exact ⟨a, List.mem_cons_self _ _, by rw [hfa, hxb]⟩
        · obtain ⟨a', ha', hfa'⟩ := ih bs hm x hxs
          exact ⟨a', List.mem_cons_of_mem _ ha', hfa'⟩

theorem mapE_ok_each {α β : Type} (f : α → Except PyErr β) (l : List α) (r : List β)
    (h : mapE f l = .ok r) : ∀ a ∈ l, ∃ x ∈ r, f a = .ok x := by
  induction l generalizing r with
  | nil =>
    intro a ha
    simp at ha
  | cons a as ih =>
    cases hfa : f a with
    | error e => simp [mapE, hfa] at h
    | ok b =>
      cases hm : mapE f as with
      | error e => simp [mapE, hfa, hm] at h
      | ok bs =>
        simp only [mapE, hfa, hm, Except.ok.injEq] at h
        subst h
        intro a' ha'
        rcases List.mem_cons.mp ha' with haa | has
        · exact ⟨b, List.mem_cons_self _ _, by rw [haa, hfa]⟩
        · obtain ⟨x, hx, hfx⟩ := ih bs hm a' has
          exact ⟨x, List.mem_cons_of_mem _ hx, hfx⟩

theorem mapE_error_elem {α β : Type} (f : α → Except PyErr β) (l : List α) (err : PyErr)
    (h : mapE f l = .error err) : ∃ a ∈ l, f a = .error err := by
  induction l with
  | nil => simp [mapE] at h
  | cons a as ih =>
    cases hfa : f a with
    | error e =>
      simp only [mapE, hfa, Except.error.injEq] at h
      exact ⟨a, List.mem_cons_self _ _, by rw [hfa, h]⟩
    | ok b =>
      cases hm : mapE f as with
      | error e =>
        simp only [mapE, hfa, hm, Except.error.injEq] at h
        obtain ⟨a', ha', hfa'⟩ := ih (by rw [hm, h])
        exact ⟨a', List.mem_cons_of_mem _ ha', hfa'⟩
      | ok bs => simp [mapE, hfa, hm] at h

theorem mapE_bestOf_spec (entries : List DirEntry) (comps : List String)
    (r : List (String × Option String)) (h : mapE (bestOf entries) comps = .ok r) :
    r.map Prod.fst = comps ∧ ∀ p ∈ r, find_best entries p.1 = .ok p.2 := by
  induction comps generalizing r with
  | nil =>
    simp only [mapE, Except.ok.injEq] at h
    subst h
    exact ⟨rfl, by simp⟩
  | cons c cs ih =>
    cases hfb : find_best entries c with
    | error e => simp [mapE, bestOf, hfb] at h
    | ok b =>
      cases hm : mapE (bestOf entries) cs with
      | error e => simp [mapE, bestOf, hfb, hm] at h
      | ok bs =>
        simp only [mapE, bestOf, hfb, hm, Except.ok.injEq] at h
        subst h
        obtain ⟨ih1, ih2⟩ := ih bs hm
        constructor
        · simp [ih1]
        · intro p hp
          rcases List.mem_cons.mp hp with hpc | hps
          · rw [hpc]
            exact hfb
          · exact ih2 p hps

theorem mapE_readMetric_spec (accs : AccRecord) (ms : List String)
    (vals : List (String × Score)) (h : mapE (readMetric accs) ms = .ok vals) :
    vals.map Prod.fst = ms ∧ ∀ p ∈ vals, lookupAssoc accs p.1 = some p.2 := by
  induction ms generalizing vals with
  | nil =>
    simp only [mapE, Except.ok.injEq] at h
    subst h
    exact ⟨rfl, by simp⟩
  | cons m ms' ih =>
    cases hlm : lookupAssoc accs m with
    | none => simp [mapE, readMetric, hlm] at h
    | some v =>
      cases hm : mapE (readMetric accs) ms' with
      | error e => simp [mapE, readMetric, hlm, hm] at h
      | ok vs =>
        simp only [mapE, readMetric, hlm, hm, Except.ok.injEq] at h
        subst h
        obtain ⟨ih1, ih2⟩ := ih vs hm
        constructor
        · simp [ih1]
        · intro p hp
          rcases List.mem_cons.mp hp with hpm | hps
          · rw [hpm]
            exact hlm
          · exact ih2 p hps

/-! ### candidates / find_best characterization -/

theorem get_metrics_nodup (c : String) : (get_metrics c).Nodup := by
  unfold get_metrics
  split_ifs <;> decide

theorem readCandidate_ok (c : String) (e : DirEntry) (x : List Score × String)
    (h : readCandidate c e = .ok x) :
    ∃ rec, e.accuracy = some rec ∧ x = (scoreTuple c rec, e.name) := by
  cases ha : e.accuracy with
  | none => simp [readCandidate, ha] at h
  | some rec =>
    simp only [readCandidate, ha, Except.ok.injEq] at h
    exact ⟨rec, rfl, h.symm⟩

theorem readCandidate_error (c : String) (e : DirEntry) (err : PyErr)
    (h : readCandidate c e = .error err) :
    err = .fileNotFound ∧ e.accuracy = none := by
  cases ha : e.accuracy with
  | none =>
    simp only [readCandidate, ha, Except.error.injEq] at h
    exact ⟨h.symm, rfl⟩
  | some rec => simp [readCandidate, ha] at h

theorem candidates_elem (entries : List DirEntry) (c : String)
    (cands : List (List Score × String)) (h : candidates entries c = .ok cands) :
    ∀ x ∈ cands, ∃ e, e ∈ entries ∧ e.isDir = true ∧ e.name ≠ "model-final" ∧
      ∃ rec, e.accuracy = some rec ∧ x = (scoreTuple c rec, e.name) := by
  intro x hx
  obtain ⟨e, he, hre⟩ := mapE_ok_elem _ _ _ h x hx
  simp only [epochDirs] at he
  have hmem := List.mem_filter.mp he
  obtain ⟨rec, hrec, hxe⟩ := readCandidate_ok c e x hre
  have hb := Bool.and_eq_true_iff.mp hmem.2
  refine ⟨e, hmem.1, hb.1, ?_, rec, hrec, hxe⟩
  exact bne_iff_ne.mp hb.2

theorem candidates_each (entries : List DirEntry) (c : String)
    (cands : List (List Score × String)) (h : candidates entries c = .ok cands) :
    ∀ e ∈ entries, e.isDir = true → e.name ≠ "model-final" →
      ∃ rec, e.accuracy = some rec ∧ (scoreTuple c rec, e.name) ∈ cands := by
  intro e he hdir hname
  have hef : e ∈ epochDirs entries := by
    simp only [epochDirs]
    refine List.mem_filter.mpr ⟨he, ?_⟩
    simp [hdir, hname]
  obtain ⟨x, hx, hre⟩ := mapE_ok_each _ _ _ h e hef
  obtain ⟨rec, hrec, hxe⟩ := readCandidate_ok c e x hre
  exact ⟨rec, hrec, hxe ▸ hx⟩

theorem candidates_error_shape (entries : List DirEntry) (c : String) (err : PyErr)
    (h : candidates entries c = .error err) : err = .fileNotFound := by
  obtain ⟨e, he, hre⟩ := mapE_error_elem _ _ _ h
  exact (readCandidate_error c e err hre).1

theorem candidates_missing (entries : List DirEntry) (c : String)
    (hmiss : ∃ e ∈ entries, e.isDir = true ∧ e.name ≠ "model-final" ∧ e.accuracy = none) :
    candidates entries c = .error .fileNotFound := by
  cases hc : candidates entries c with
  | ok cands =>
    obtain ⟨e, he, hdir, hname, hacc⟩ := hmiss
    obtain ⟨rec, hrec, _⟩ := candidates_each entries c cands hc e he hdir hname
    rw [hacc] at hrec
    exact absurd hrec (by simp)
  | error err =>
    rw [candidates_error_shape entries c err hc]

theorem find_best_ok_some (entries : List DirEntry) (c : String) (w : String)
    (h : find_best entries c = .ok (some w)) :
    ∃ cands tw, candidates entries c = .ok cands ∧
      pyMax pyPairLt cands = some (tw, w) := by
  cases hc : candidates entries c with
  | error e => simp [find_best, hc] at h
  | ok cands =>
    cases hm : pyMax pyPairLt cands with
    | none => simp [find_best, hc, hm] at h
    | some best =>
      simp only [find_best, hc, hm, Except.ok.injEq, Option.some.injEq] at h
      refine ⟨cands, best.1, rfl, ?_⟩
      rw [← h]
      exact hm

theorem entryAcc_of_mem (entries : List DirEntry) (e : DirEntry)
    (hnd : (entries.map DirEntry.name).Nodup) (he : e ∈ entries) :
    entryAcc entries e.name = e.accuracy := by
  induction entries with
  | nil => simp at he
  | cons e0 rest ih =>
    simp only [List.map_cons, List.nodup_cons] at hnd
    rcases List.mem_cons.mp he with hee | he'
    · rw [hee]
      simp [entryAcc, List.find?]
    · have hne : (e0.name == e.name) = false := by
        by_cases hq : e0.name = e.name
        · refine absurd ?_ hnd.1
          rw [hq]
          exact List.mem_map_of_mem DirEntry.name he'
        · simp [hq]
      have hskip : entryAcc (e0 :: rest) e.name = entryAcc rest e.name := by
        simp only [entryAcc, List.find?, hne]
      rw [hskip]
      exact ih hnd.2 he'

/-! ### collate fold lemmas -/

theorem collateStep_ok (entries : List DirEntry)
    (st : AccRecord × List (String × String)) (cb : String × Option String)
    (res : AccRecord × List (String × String))
    (h : collateStep entries st cb = .ok res) :
    ∃ loc accs vals, cb.2 = some loc ∧ entryAcc entries loc = some accs ∧
      mapE (readMetric accs) (get_metrics cb.1) = .ok vals ∧
      res = (vals.foldl (fun a p => setAssoc a p.1 p.2) st.1, setAssoc st.2 cb.1 loc) := by
  cases hcb : cb.2 with
  | none => simp [collateStep, hcb] at h
  | some loc =>
    cases hacc : entryAcc entries loc with
    | none => simp [collateStep, hcb, hacc] at h
    | some accs =>
      cases hm : mapE (readMetric accs) (get_metrics cb.1) with
      | error e => simp [collateStep, hcb, hacc, hm] at h
      | ok vals =>
        simp only [collateStep, hcb, hacc, hm, Except.ok.injEq] at h
        exact ⟨loc, accs, vals, rfl, hacc, hm, h.symm⟩

theorem collateStep_preserves (entries : List DirEntry)
    (st : AccRecord × List (String × String)) (cb : String × Option String)
    (res : AccRecord × List (String × String)) (m : String)
    (h : collateStep entries st cb = .ok res) (hm : m ∉ get_metrics cb.1) :
    lookupAssoc res.1 m = lookupAssoc st.1 m := by
  obtain ⟨loc, accs, vals, hcb, hacc, hmape, hres⟩ := collateStep_ok entries st cb res h
  rw [hres]
  apply lookupAssoc_foldl_set_notmem
  intro p hp hpm
  obtain ⟨hkeys, _⟩ := mapE_readMetric_spec accs _ vals hmape
  apply hm
  rw [← hkeys, ← hpm]
  exact List.mem_map_of_mem Prod.fst hp

theorem collateStep_sets (entries : List DirEntry)
    (st : AccRecord × List (String × String)) (cb : String × Option String)
    (res : AccRecord × List (String × String))
    (h : collateStep entries st cb = .ok res) :
    ∃ loc accs, cb.2 = some loc ∧ entryAcc entries loc = some accs ∧
      ∀ m ∈ get_metrics cb.1, lookupAssoc res.1 m = lookupAssoc accs m ∧
        ∃ v, lookupAssoc accs m = some v := by
  obtain ⟨loc, accs, vals, hcb, hacc, hmape, hres⟩ := collateStep_ok entries st cb res h
  obtain ⟨hkeys, hvals⟩ := mapE_readMetric_spec accs _ vals hmape
  refine ⟨loc, accs, hcb, hacc, ?_⟩
  intro m hm
  rw [← hkeys] at hm
  obtain ⟨p, hp, hp1⟩ := List.mem_map.mp hm
  have hlp := hvals p hp
  have hmp : (m, p.2) ∈ vals := by
    rw [← hp1]
    have : (p.1, p.2) = p := rfl
    rw [this]
    exact hp
  have hnd : (vals.map Prod.fst).Nodup := by
    rw [hkeys]
    exact get_metrics_nodup cb.1
  constructor
  · rw [hres]
    have h1 := lookupAssoc_foldl_set_mem vals st.1 hnd m p.2 hmp
    have h2 : lookupAssoc accs m = some p.2 := by
      rw [← hp1]
      exact hlp
    rw [h1, h2]
  · refine ⟨p.2, ?_⟩
    rw [← hp1]
    exact hlp

theorem foldE_collate_preserves (entries : List DirEntry) :
    ∀ (bests : List (String × Option String)) (st res : AccRecord × List (String × String))
      (m : String),
      foldE (collateStep entries) st bests = .ok res →
      (∀ q ∈ bests, m ∉ get_metrics q.1) →
      lookupAssoc res.1 m = lookupAssoc st.1 m := by
  intro bests
  induction bests with
  | nil =>
    intro st res m h hq
    simp only [foldE, Except.ok.injEq] at h
    rw [h]
  | cons p rest ih =>
    intro st res m h hq
    cases hs : collateStep entries st p with
    | error e => simp [foldE, hs] at h
    | ok st1 =>
      simp only [foldE, hs] at h
      rw [ih st1 res m h (fun q hq' => hq q (List.mem_cons_of_mem _ hq'))]
      exact collateStep_preserves entries st p st1 m hs (hq p (List.mem_cons_self _ _))

theorem foldE_collate_split (entries : List DirEntry) (l1 : List (String × Option String))
    (p : String × Option String) (l2 : List (String × Option String))
    (st res : AccRecord × List (String × String))
    (h : foldE (collateStep entries) st (l1 ++ p :: l2) = .ok res)
    (hdisj : ∀ q ∈ l2, ∀ m ∈ get_metrics p.1, m ∉ get_metrics q.1) :
    ∃ loc accs, p.2 = some loc ∧ entryAcc entries loc = some accs ∧
      ∀ m ∈ get_metrics p.1, lookupAssoc res.1 m = lookupAssoc accs m ∧
        ∃ v, lookupAssoc accs m = some v := by
  induction l1 generalizing st with
  | nil =>
    simp only [List.nil_append] at h
    cases hs : collateStep entries st p with
    | error e => simp [foldE, hs] at h
    | ok st1 =>
      simp only [foldE, hs] at h
      obtain ⟨loc, accs, hcb, hacc, hsets⟩ := collateStep_sets entries st p st1 hs
      refine ⟨loc, accs, hcb, hacc, ?_⟩
      intro m hm
      obtain ⟨hv, hsome⟩ := hsets m hm
      constructor
      · rw [foldE_collate_preserves entries l2 st1 res m h (fun q hq => hdisj q hq m hm)]
        exact hv
      · exact hsome
  | cons q l1' ih =>
    simp only [List.cons_append] at h
    cases hs : collateStep entries st q with
    | error e => simp [foldE, hs] at h
    | ok st1 =>
      simp only [foldE, hs] at h
      exact ih st1 h

/-! ### Trace lemmas for the checkpoint block -/

theorem ckSteps_plain (cfg : TrainConfig) (i : Nat) (t1 t2 : Score) :
    ∀ s ∈ ckSteps cfg i t1 t2, ∀ e ∈ s.2, plainCk e = true := by
  intro s hs e he
  by_cases hgpu : cfg.use_gpu < 0
  · simp only [ckSteps, hgpu, if_true, List.nil_append, List.append_nil, List.cons_append,
      List.mem_cons, List.not_mem_nil, or_false, List.mem_append] at hs
    rcases hs with h | h | h | h | h | h <;>
      (rw [h] at he; simp only [List.mem_cons, List.not_mem_nil, or_false] at he;
       rw [he]; rfl)
  · simp only [ckSteps, hgpu, if_false, List.nil_append, List.append_nil, List.cons_append,
      List.mem_cons, List.not_mem_nil, or_false, List.mem_append] at hs
    rcases hs with h | h | h | h | h | h | h | h | h <;>
      (rw [h] at he; simp only [List.mem_cons, List.not_mem_nil, or_false] at he;
       rw [he]; rfl)

theorem lastEnvLog_append_some (a b : List Event) (x : Bool) (h : lastEnvLog b = some x) :
    lastEnvLog (a ++ b) = some x := by
  induction a with
  | nil => simpa using h
  | cons e a' ih =>
    show lastEnvLog (e :: (a' ++ b)) = some x
    simp only [lastEnvLog]
    rw [ih]

theorem lastEnvLog_append_none (a b : List Event) (h : lastEnvLog b = none) :
    lastEnvLog (a ++ b) = lastEnvLog a := by
  induction a with
  | nil => simpa using h
  | cons e a' ih =>
    show lastEnvLog (e :: (a' ++ b)) = lastEnvLog (e :: a')
    simp only [lastEnvLog]
    rw [ih]

theorem lastEnvLog_none_of_plain (l : List Event) (h : ∀ e ∈ l, plainCk e = true) :
    lastEnvLog l = none := by
  induction l with
  | nil => rfl
  | cons e rest ih =>
    have hrest := ih (fun x hx => h x (List.mem_cons_of_mem _ hx))
    have hee := h e (List.mem_cons_self _ _)
    simp only [lastEnvLog, hrest]
    cases e <;> first
      | rfl
      | exact absurd hee (by simp [plainCk])

theorem mem_of_takeWhile {α : Type} (p : α → Bool) (l : List α) (x : α)
    (h : x ∈ l.takeWhile p) : x ∈ l := by
  induction l with
  | nil => simp at h
  | cons a l' ih =>
    simp only [List.takeWhile] at h
    cases hp : p a with
    | true =>
      rw [hp] at h
      rcases List.mem_cons.mp h with hxa | hxl
      · rw [hxa]
        exact List.mem_cons_self _ _
      · exact List.mem_cons_of_mem _ (ih hxl)
    | false =>
      rw [hp] at h
      simp only [List.not_mem_nil] at h

theorem plain_flatten (steps : List (CkStage × List Event))
    (hsteps : ∀ s ∈ steps, ∀ e ∈ s.2, plainCk e = true) :
    ∀ e ∈ (steps.map (fun s => s.2)).flatten, plainCk e = true := by
  intro e he
  obtain ⟨l, hl, hel⟩ := List.mem_flatten.mp he
  obtain ⟨s, hs, hls⟩ := List.mem_map.mp hl
  refine hsteps s hs e ?_
  rw [hls]
  exact hel

theorem checkpoint_trace_none (cfg : TrainConfig) (i : Nat) (t1 t2 : Score) :
    (checkpoint cfg i t1 t2 none).1 =
      [Event.enterAvg, Event.envLog false] ++
        ((ckSteps cfg i t1 t2).map (fun s => s.2)).flatten ++
        [Event.envLog cfg.verbose] ++ [Event.exitAvg] := rfl

theorem checkpoint_trace_some (cfg : TrainConfig) (i : Nat) (t1 t2 : Score) (s : CkStage) :
    (checkpoint cfg i t1 t2 (some s)).1 =
      [Event.enterAvg, Event.envLog false] ++
        (((ckSteps cfg i t1 t2).takeWhile (fun p => p.1 ≠ s)).map (fun q => q.2)).flatten ++
        [] ++ [Event.exitAvg] := rfl

theorem checkpoint_body_plain_some (cfg : TrainConfig) (i : Nat) (t1 t2 : Score) (s : CkStage) :
    ∀ e ∈ (((ckSteps cfg i t1 t2).takeWhile (fun p => p.1 ≠ s)).map (fun q => q.2)).flatten,
      plainCk e = true := by
  apply plain_flatten
  intro q hq
  exact ckSteps_plain cfg i t1 t2 q (mem_of_takeWhile _ _ q hq)

theorem checkpoint_lastEnvLog (cfg : TrainConfig) (i : Nat) (t1 t2 : Score)
    (fail : Option CkStage) :
    lastEnvLog (checkpoint cfg i t1 t2 fail).1 =
      some (match fail with | none => cfg.verbose | some _ => false) := by
  cases fail with
  | none =>
    rw [checkpoint_trace_none]
    rw [lastEnvLog_append_none _ _ (rfl : lastEnvLog [Event.exitAvg] = none)]
    exact lastEnvLog_append_some _ _ _ rfl
  | some s =>
    rw [checkpoint_trace_some, List.append_nil]
    rw [lastEnvLog_append_none _ _ (rfl : lastEnvLog [Event.exitAvg] = none)]
    rw [lastEnvLog_append_none _ _
      (lastEnvLog_none_of_plain _ (checkpoint_body_plain_some cfg i t1 t2 s))]
    rfl

theorem checkpoint_getLast (cfg : TrainConfig) (i : Nat) (t1 t2 : Score)
    (fail : Option CkStage) :
    (checkpoint cfg i t1 t2 fail).1.getLast? = some Event.exitAvg := by
  cases fail with
  | none =>
    rw [checkpoint_trace_none]
    exact List.getLast?_concat _
  | some s =>
    rw [checkpoint_trace_some]
    rw [List.append_nil]
    exact List.getLast?_concat _

theorem checkpoint_exitAvg_mem (cfg : TrainConfig) (i : Nat) (t1 t2 : Score)
    (fail : Option CkStage) :
    Event.exitAvg ∈ (checkpoint cfg i t1 t2 fail).1 := by
  cases fail with
  | none =>
    rw [checkpoint_trace_none]
    simp
  | some s =>
    rw [checkpoint_trace_some]
    simp

theorem not_mem_checkpoint (cfg : TrainConfig) (i : Nat) (t1 t2 : Score)
    (fail : Option CkStage) (ev : Event)
    (hev : plainCk ev = false) (h1 : ev ≠ .enterAvg) (h2 : ∀ b, ev ≠ .envLog b)
    (h3 : ev ≠ .exitAvg) :
    ev ∉ (checkpoint cfg i t1 t2 fail).1 := by
  cases fail with
  | none =>
    rw [checkpoint_trace_none]
    intro hm
    simp only [List.mem_append, List.mem_cons, List.not_mem_nil, or_false] at hm
    rcases hm with (((h | h) | h) | h) | h
    · exact h1 h
    · exact h2 false h
    · rw [(plain_flatten _ (ckSteps_plain cfg i t1 t2)) ev h] at hev
      exact absurd hev (by decide)
    · exact h2 cfg.verbose h
    · exact h3 h
  | some s =>
    rw [checkpoint_trace_some, List.append_nil]
    intro hm
    simp only [List.mem_append, List.mem_cons, List.not_mem_nil, or_false] at hm
    rcases hm with ((h | h) | h) | h
    · exact h1 h
    · exact h2 false h
    · rw [checkpoint_body_plain_some cfg i t1 t2 s ev h] at hev
      exact absurd hev (by decide)
    · exact h3 h

/-! ### Epoch loop lemmas -/

theorem epochEvents_snd (cfg : TrainConfig) (i : Nat) (b : EpochBehavior) :
    (epochEvents cfg i b).2 = raisesB b := by
  cases b with
  | trainRaise => rfl
  | ck t1 t2 fail => rfl

theorem loopFrom_snd (cfg : TrainConfig) (beh : Nat → EpochBehavior) (l : List Nat) :
    (loopFrom cfg beh l).2 = l.any (fun i => raisesB (beh i)) := by
  induction l with
  | nil => rfl
  | cons i rest ih =>
    have he2 := epochEvents_snd cfg i (beh i)
    simp only [loopFrom, List.any_cons]
    cases hb : raisesB (beh i) with
    | true =>
      rw [hb] at he2
      rw [if_pos he2]
      simp
    | false =>
      rw [hb] at he2
      rw [if_neg (by simp [he2])]
      simp [ih]

theorem not_mem_epochEvents (cfg : TrainConfig) (i : Nat) (b : EpochBehavior) (ev : Event)
    (hev : plainCk ev = false) (h1 : ev ≠ .enterAvg) (h2 : ∀ x, ev ≠ .envLog x)
    (h3 : ev ≠ .exitAvg) (h4 : ∀ j, ev ≠ .epochTrain j) :
    ev ∉ (epochEvents cfg i b).1 := by
  cases b with
  | trainRaise => simp [epochEvents]
  | ck t1 t2 fail =>
    simp only [epochEvents]
    intro hm
    rcases List.mem_cons.mp hm with hm | hm
    · exact h4 i hm
    · exact not_mem_checkpoint cfg i t1 t2 fail ev hev h1 h2 h3 hm

theorem not_mem_loopFrom (cfg : TrainConfig) (beh : Nat → EpochBehavior) (l : List Nat)
    (ev : Event)
    (hev : plainCk ev = false) (h1 : ev ≠ .enterAvg) (h2 : ∀ x, ev ≠ .envLog x)
    (h3 : ev ≠ .exitAvg) (h4 : ∀ j, ev ≠ .epochTrain j) :
    ev ∉ (loopFrom cfg beh l).1 := by
  induction l with
  | nil => simp [loopFrom]
  | cons i rest ih =>
    simp only [loopFrom]
    cases hr : (epochEvents cfg i (beh i)).2 with
    | true =>
      rw [if_pos rfl]
      exact not_mem_epochEvents cfg i (beh i) ev hev h1 h2 h3 h4
    | false =>
      rw [if_neg (by decide)]
      intro hm
      rcases List.mem_append.mp hm with hm | hm
      · exact not_mem_epochEvents cfg i (beh i) ev hev h1 h2 h3 h4 hm
      · exact ih hm

/-! ### Multitask registration lemmas -/

theorem registerMt_ok_events (pl : List String) (n mt : String) (evs : List Event)
    (h : registerMt pl n mt = .ok evs) :
    ∀ e ∈ evs, ∃ o, e = .addMultitask n o := by
  unfold registerMt at h
  split_ifs at h with h1 h2
  · simp only [Except.ok.injEq] at h
    rw [← h]
    simp
  · simp only [Except.ok.injEq] at h
    rw [← h]
    intro e he
    obtain ⟨o, ho, heo⟩ := List.mem_map.mp he
    exact ⟨o, heo.symm⟩

theorem registerMt_error_iff (pl : List String) (n mt : String) (e : PyErr) :
    registerMt pl n mt = .error e ↔ (mt ≠ "" ∧ n ∉ pl ∧ e = .valueError) := by
  unfold registerMt
  split_ifs with h1 h2
  · simp [h1]
  · simp [h1, h2]
  · simp [h1, h2, eq_comm]

theorem registerMt_registers (pl : List String) (n mt : String)
    (hin : n ∈ pl) (hne : mt ≠ "") (o : String) (ho : o ∈ pySplitComma mt) :
    registerMt pl n mt = .ok ((pySplitComma mt).map (fun x => Event.addMultitask n x)) ∧
      Event.addMultitask n o ∈ (pySplitComma mt).map (fun x => Event.addMultitask n x) := by
  constructor
  · unfold registerMt
    rw [if_neg hne, if_pos hin]
  · exact List.mem_map_of_mem _ ho

/-! ### Minibatch partitioner lemmas -/

theorem minibatchAux_flatten {α : Type} (len : α → Nat) (targets : Nat → Score) :
    ∀ (xs : List α) (k : Nat) (acc : List α) (cum : Nat),
      (minibatchAux len targets k acc cum xs).flatten = acc ++ xs := by
  intro xs
  induction xs with
  | nil =>
    intro k acc cum
    by_cases h : acc.isEmpty = true
    · simp [minibatchAux, h, List.isEmpty_iff.mp h]
    · simp [minibatchAux, h]
  | cons x xs' ih =>
    intro k acc cum
    simp only [minibatchAux]
    by_cases h : targets k ≤ ((cum + len x : Nat) : Score)
    · rw [if_pos h]
      simp [ih]
    · rw [if_neg h]
      rw [ih]
      simp

theorem minibatchAux_ne_nil {α : Type} (len : α → Nat) (targets : Nat → Score) :
    ∀ (xs : List α) (k : Nat) (acc : List α) (cum : Nat) (b : List α),
      b ∈ minibatchAux len targets k acc cum xs → b ≠ [] := by
  intro xs
  induction xs with
  | nil =>
    intro k acc cum b hb
    simp only [minibatchAux] at hb
    by_cases h : acc.isEmpty = true
    · rw [if_pos h] at hb
      simp at hb
    · rw [if_neg h] at hb
      simp only [List.mem_cons, List.not_mem_nil, or_false] at hb
      rw [hb]
      intro hnil
      rw [hnil] at h
      exact h rfl
  | cons x xs' ih =>
    intro k acc cum b hb
    simp only [minibatchAux] at hb
    by_cases h : targets k ≤ ((cum + len x : Nat) : Score)
    · rw [if_pos h] at hb
      rcases List.mem_cons.mp hb with hb1 | hb2
      · rw [hb1]
        simp
      · exact ih (k + 1) [] 0 b hb2
    · rw [if_neg h] at hb
      exact ih k (acc ++ [x]) (cum + len x) b hb

theorem minibatchAux_targets {α : Type} (len : α → Nat) (targets : Nat → Score) :
    ∀ (xs : List α) (k : Nat) (acc : List α) (cum : Nat),
      cum = (acc.map len).sum →
      ∀ j, j + 1 < (minibatchAux len targets k acc cum xs).length →
        targets (k + j) ≤ ((((minibatchAux len targets k acc cum xs).getD j []).map len).sum : Score) := by
  intro xs
  induction xs with
  | nil =>
    intro k acc cum hc j hj
    simp only [minibatchAux] at hj
    by_cases h : acc.isEmpty = true
    · rw [if_pos h] at hj
      simp at hj
    · rw [if_neg h] at hj
      simp only [List.length_cons, List.length_nil] at hj
      omega
  | cons x xs' ih =>
    intro k acc cum hc j hj
    simp only [minibatchAux] at hj ⊢
    by_cases h : targets k ≤ ((cum + len x : Nat) : Score)
    · rw [if_pos h] at hj ⊢
      cases j with
      | zero =>
        rw [List.getD_cons_zero]
        have hsum : ((acc ++ [x]).map len).sum = cum + len x := by
          simp [hc]
        rw [hsum]
        simpa using h
      | succ j' =>
        have hj' : j' + 1 < (minibatchAux len targets (k + 1) [] 0 xs').length := by
          simp only [List.length_cons] at hj
          omega
        have hres := ih (k + 1) [] 0 rfl j' hj'
        rw [List.getD_cons_succ]
        have hidx : k + (j' + 1) = (k + 1) + j' := by omega
        rw [hidx]
        exact hres
    · rw [if_neg h] at hj ⊢
      exact ih k (acc ++ [x]) (cum + len x) (by simp [hc]) j hj

/-! ### Multitask phase helper -/

theorem multitaskPhase_events (cfg : TrainConfig) :
    ∀ e ∈ (multitaskPhase cfg).1, ∃ n o, e = Event.addMultitask n o := by
  unfold multitaskPhase
  cases hp : registerMt cfg.pipeline "parser" cfg.parser_multitasks with
  | error e => simp
  | ok ev1 =>
    cases hn : registerMt cfg.pipeline "ner" cfg.entity_multitasks with
    | error e =>
      intro x hx
      obtain ⟨o, ho⟩ := registerMt_ok_events _ _ _ _ hp x hx
      exact ⟨_, o, ho⟩
    | ok ev2 =>
      intro x hx
      rcases List.mem_append.mp hx with hx | hx
      · obtain ⟨o, ho⟩ := registerMt_ok_events _ _ _ _ hp x hx
        exact ⟨_, o, ho⟩
      · obtain ⟨o, ho⟩ := registerMt_ok_events _ _ _ _ hn x hx
        exact ⟨_, o, ho⟩

/-! ### Claims -/

/-- Claim C5 (code bug): when no epoch directories exist, `_find_best`
returns `None` (the "no winner" case the claim describes), but
`_collate_best_model` never checks for it: `None / component` raises a
`TypeError`, so the composition does not complete. -/
theorem C5_no_epochs_crash :
    find_best [] "parser" = .ok none ∧
    collate_best_model [] [] ["parser"] = .error PyErr.typeError := by
  constructor
  · rfl
  · rfl

/-- Claim C10: `_find_best` opens `accuracy.json` in every directory other
than `model-final`; any such directory without an accuracy record — such as a
stale `model-best` from a previous run into the same output path — is picked
up as an epoch candidate and makes the tournament (and hence the collation)
raise a file-not-found error. -/
theorem C10_stale_dir_breaks_tournament :
    (∀ (entries : List DirEntry) (c : String),
      (∃ e ∈ entries, e.isDir = true ∧ e.name ≠ "model-final" ∧ e.accuracy = none) →
      find_best entries c = .error PyErr.fileNotFound) ∧
    find_best entriesStale "tagger" = .error PyErr.fileNotFound ∧
    collate_best_model [] entriesStale ["tagger"] = .error PyErr.fileNotFound := by
  refine ⟨?_, by decide, by decide⟩
  intro entries c hmiss
  have hc := candidates_missing entries c hmiss
  simp [find_best, hc]

/-- Claim C10 witness: the stale-`model-best` directory listing satisfies the
hypothesis, and the tournament fails on it. -/
theorem C10_witness :
    (∃ e ∈ entriesStale, e.isDir = true ∧ e.name ≠ "model-final" ∧
      e.accuracy = none) ∧
    find_best entriesStale "parser" = .error PyErr.fileNotFound :=
  ⟨by decide, C10_stale_dir_breaks_tournament.1 entriesStale "parser" (by decide)⟩

/-- Claim C8: the tournament projects each epoch's accuracy record onto the
fixed per-component metric tuple — `(las, uas, token_acc)` for parser,
`(tags_acc,)` for tagger, `(ents_f, ents_p, ents_r)` for ner, `(token_acc,)`
for anything else — substituting 0.0 for missing metrics, and compares the
tuples lexicographically with the first element most significant. -/
theorem C8_metric_projection :
    get_metrics "parser" = ["las", "uas", "token_acc"] ∧
    get_metrics "tagger" = ["tags_acc"] ∧
    get_metrics "ner" = ["ents_f", "ents_p", "ents_r"] ∧
    (∀ c : String, c ≠ "parser" → c ≠ "tagger" → c ≠ "ner" →
      get_metrics c = ["token_acc"]) ∧
    (∀ (c : String) (rec : AccRecord),
      scoreTuple c rec = (get_metrics c).map (fun m => (lookupAssoc rec m).getD 0)) ∧
    (∀ (x y : Score) (xs ys : List Score),
      pyListLt (x :: xs) (y :: ys) = true ↔ x < y ∨ (x = y ∧ pyListLt xs ys = true)) ∧
    (∀ (entries : List DirEntry) (c : String) (cands : List (List Score × String)),
      candidates entries c = .ok cands →
      ∀ e ∈ entries, e.isDir = true → e.name ≠ "model-final" →
        ∃ rec, e.accuracy = some rec ∧ (scoreTuple c rec, e.name) ∈ cands) := by
  refine ⟨rfl, rfl, rfl, ?_, fun c rec => rfl, ?_, candidates_each⟩
  · intro c h1 h2 h3
    simp [get_metrics, h1, h2, h3]
  · intro x y xs ys
    exact lexLt_cons_iff x y xs ys

/-- Claim C8 witness: the projection and ordering evaluated at concrete
inputs (an unlisted component falls back to `(token_acc,)`; comparison is by
first element first). -/
theorem C8_witness :
    get_metrics "textcat" = ["token_acc"] ∧
    (pyListLt [score080, score05] [score091, score05] = true ↔
      score080 < score091 ∨ (score080 = score091 ∧ pyListLt [score05] [score05] = true)) ∧
    (∃ rec, (⟨"model0", true, some recEp0⟩ : DirEntry).accuracy = some rec ∧
      (scoreTuple "parser" rec, "model0") ∈ [(scoreTuple "parser" recEp0, "model0")]) :=
  ⟨C8_metric_projection.2.2.2.1 "textcat" (by decide) (by decide) (by decide),
   C8_metric_projection.2.2.2.2.2.1 score080 score091 [score05] [score05],
   C8_metric_projection.2.2.2.2.2.2 [⟨"model0", true, some recEp0⟩] "parser"
     [(scoreTuple "parser" recEp0, "model0")] (by decide)
     ⟨"model0", true, some recEp0⟩ (by decide) (by decide) (by decide)⟩

/-- Claim C4: on an exact ranking-tuple tie the selected winner is the
candidate whose location string compares greatest under Python's
lexicographic string ordering — which, with unpadded epoch indices, is not
numeric order: `model9` beats `model10`. -/
theorem C4_tiebreak_string_order :
    (∀ (entries : List DirEntry) (c : String) (cands : List (List Score × String))
      (tw : List Score) (w : String),
      candidates entries c = .ok cands →
      pyMax pyPairLt cands = some (tw, w) →
      find_best entries c = .ok (some w) ∧
      ∀ t n, (t, n) ∈ cands → t = tw →
        pyStrLt w n = false ∧ (n = w ∨ pyStrLt n w = true)) ∧
    find_best entriesTie "tagger" = .ok (some "model9") ∧
    pyStrLt "model10" "model9" = true := by
  refine ⟨?_, by decide, by decide⟩
  intro entries c cands tw w hc hm
  constructor
  · simp [find_best, hc, hm]
  · intro t n htn ht
    have hnl := pyMax_not_lt pyPairLt pyPairLt_irrefl pyPairLt_trans pyPairLt_connex
      cands (tw, w) hm (t, n) htn
    rw [pyPairLt_eq] at hnl
    rw [if_pos (show (tw, w).1 = (t, n).1 from ht.symm)] at hnl
    constructor
    · exact hnl
    · cases hq : pyStrLt n w with
      | true => exact Or.inr rfl
      | false =>
        left
        exact stringData_inj n w (lexLt_eq_of_not _ _ hq hnl)

/-- Claim C4 witness: two epochs with identical `(tags_acc,)` tuples at
locations `model10` and `model9`; the tournament selects `model9`. -/
theorem C4_witness :
    candidates entriesTie "tagger" = .ok [([score05], "model10"), ([score05], "model9")] ∧
    pyMax pyPairLt [([score05], "model10"), ([score05], "model9")] =
      some ([score05], "model9") ∧
    find_best entriesTie "tagger" = .ok (some "model9") ∧
    pyStrLt "model9" "model10" = false := by
  refine ⟨by decide, by decide, ?_, ?_⟩
  · exact (C4_tiebreak_string_order.1 entriesTie "tagger"
      [([score05], "model10"), ([score05], "model9")] [score05] "model9"
      (by decide) (by decide)).1
  · exact ((C4_tiebreak_string_order.1 entriesTie "tagger"
      [([score05], "model10"), ([score05], "model9")] [score05] "model9"
      (by decide) (by decide)).2 [score05] "model10" (by decide) (by decide)).1

/-- Claim C9 (modelled from the spec, `minibatch_by_words` lives in
`spacy/util.py` outside the given sources): the batches exactly partition the
input in order, no batch is empty, and every non-final batch's cumulative
token count is at least the target size drawn from the schedule for it. -/
theorem C9_minibatch_partition {α : Type} (len : α → Nat) (targets : Nat → Score)
    (items : List α) :
    (minibatch_by_words len targets items).flatten = items ∧
    (∀ b ∈ minibatch_by_words len targets items, b ≠ []) ∧
    (∀ j, j + 1 < (minibatch_by_words len targets items).length →
      targets j ≤
        ((((minibatch_by_words len targets items).getD j []).map len).sum : Score)) := by
  refine ⟨?_, ?_, ?_⟩
  · have h := minibatchAux_flatten len targets items 0 [] 0
    simpa [minibatch_by_words] using h
  · intro b hb
    exact minibatchAux_ne_nil len targets items 0 [] 0 b hb
  · intro j hj
    have h := minibatchAux_targets len targets items 0 [] 0 rfl j hj
    simpa using h

/-- Claim C9 witness: items of token lengths 2, 2, 5, 1 against the constant
target size 3 partition as [[2,2],[5],[1]]; the first batch meets its
target. -/
theorem C9_witness :
    (minibatch_by_words (fun n : Nat => n) (fun _ => (3 : Score)) [2, 2, 5, 1]).flatten =
      [2, 2, 5, 1] ∧
    (0 : Nat) + 1 <
      (minibatch_by_words (fun n : Nat => n) (fun _ => (3 : Score)) [2, 2, 5, 1]).length ∧
    (3 : Score) ≤
      ((((minibatch_by_words (fun n : Nat => n) (fun _ => (3 : Score))
        [2, 2, 5, 1]).getD 0 []).map (fun n : Nat => n)).sum : Score) :=
  ⟨(C9_minibatch_partition (fun n : Nat => n) (fun _ => (3 : Score)) [2, 2, 5, 1]).1,
   by decide,
   (C9_minibatch_partition (fun n : Nat => n) (fun _ => (3 : Score)) [2, 2, 5, 1]).2.2
     0 (by decide)⟩

/-- Claim C3 counterexample: the claim calls `use_gpu = 0` a baseline-only
invocation, but the code tests `use_gpu < 0`; with `use_gpu = 0` the
accelerated backend is active and the epoch's persisted speed record carries
a gpu throughput value, contradicting the claimed absence. -/
theorem C3_gpu0_cex :
    writtenSpeeds (trainRun cfgD behOk).1 = [(some 7, some 9)] ∧
    ¬ (∀ s ∈ writtenSpeeds (trainRun cfgD behOk).1, s.2 = (none : Option Score)) := by
  constructor
  · decide
  · decide

/-- Claim C3 (amended): the baseline backend is selected by `use_gpu < 0`
(not `use_gpu = 0`).  Under `use_gpu < 0` the epoch writes a speed record
with a cpu value and no gpu value, after a single load and a single
evaluation; under `use_gpu ≥ 0` the pipeline is additionally reloaded under
the baseline backend and evaluated a second time, and both values are
recorded. -/
theorem C3_speed_record (cfg : TrainConfig) (i : Nat) (t1 t2 : Score) :
    writtenSpeeds (checkpoint cfg i t1 t2 none).1 =
      [if cfg.use_gpu < 0 then (some t1, none) else (some t1, some t2)] ∧
    loadsOf (checkpoint cfg i t1 t2 none).1 =
      (if cfg.use_gpu < 0 then
        [Event.loadModel ("model" ++ toString i) Backend.cpu]
      else
        [Event.loadModel ("model" ++ toString i) Backend.gpu,
         Event.loadModel ("model" ++ toString i) Backend.cpu]) ∧
    evalsOf (checkpoint cfg i t1 t2 none).1 =
      (if cfg.use_gpu < 0 then [Event.pyEval Backend.cpu]
       else [Event.pyEval Backend.gpu, Event.pyEval Backend.cpu]) := by
  by_cases h : cfg.use_gpu < 0 <;>
    simp [checkpoint, ckSteps, writtenSpeeds, loadsOf, evalsOf, h]

/-- Claim C6 counterexample: with `--verbose` configured and an exception
raised during evaluation, the trailing `util.set_env_log(verbose)` statement
is skipped, so the verbosity is not restored to its configured value (the
last env-log write remains the lowering to `False`). -/
theorem C6_envlog_cex :
    ¬ (lastEnvLog (checkpoint cfgV 0 1 1 (some CkStage.evalDev)).1 =
        some cfgV.verbose) := by
  decide

/-- Claim C6 (amended): the averaged-parameter scope is always exited before
control returns to the epoch loop (it is the last event of the checkpoint
block, a `with`-statement guarantee), but the temporarily lowered verbosity
is restored to its configured value only when the checkpoint steps complete;
on an exception the last env-log write remains `False`. -/
theorem C6_scopes (cfg : TrainConfig) (i : Nat) (t1 t2 : Score)
    (fail : Option CkStage) :
    (checkpoint cfg i t1 t2 fail).1.getLast? = some Event.exitAvg ∧
    Event.exitAvg ∈ (checkpoint cfg i t1 t2 fail).1 ∧
    lastEnvLog (checkpoint cfg i t1 t2 fail).1 =
      some (match fail with | none => cfg.verbose | some _ => false) :=
  ⟨checkpoint_getLast cfg i t1 t2 fail, checkpoint_exitAvg_mem cfg i t1 t2 fail,
   checkpoint_lastEnvLog cfg i t1 t2 fail⟩

/-- Claim C7: a multitask objective list configured for `parser` or `ner`
when that component is absent from the pipeline raises a `ValueError` before
any training work (no corpus counting, no `begin_training`, no epoch pass,
no model write); when the component is present, every comma-separated
objective name is registered on it. -/
theorem C7_multitask_config (cfg : TrainConfig) (beh : Nat → EpochBehavior) :
    (((cfg.parser_multitasks ≠ "" ∧ "parser" ∉ cfg.pipeline) ∨
      (cfg.entity_multitasks ≠ "" ∧ "ner" ∉ cfg.pipeline)) →
      (trainRun cfg beh).2 = some PyErr.valueError ∧
      Event.countWords ∉ (trainRun cfg beh).1 ∧
      Event.beginTraining ∉ (trainRun cfg beh).1 ∧
      (∀ j, Event.epochTrain j ∉ (trainRun cfg beh).1) ∧
      (∀ loc, Event.toDisk loc ∉ (trainRun cfg beh).1)) ∧
    ("parser" ∈ cfg.pipeline → cfg.parser_multitasks ≠ "" →
      ∀ o ∈ pySplitComma cfg.parser_multitasks,
        Event.addMultitask "parser" o ∈ (trainRun cfg beh).1) ∧
    ("ner" ∈ cfg.pipeline → cfg.entity_multitasks ≠ "" →
      ("parser" ∈ cfg.pipeline ∨ cfg.parser_multitasks = "") →
      ∀ o ∈ pySplitComma cfg.entity_multitasks,
        Event.addMultitask "ner" o ∈ (trainRun cfg beh).1) := by
  refine ⟨?_, ?_, ?_⟩
  · intro hbad
    have herr : (multitaskPhase cfg).2 = some PyErr.valueError := by
      unfold multitaskPhase
      cases hp : registerMt cfg.pipeline "parser" cfg.parser_multitasks with
      | error e =>
        have he := (registerMt_error_iff _ _ _ e).mp hp
        rw [he.2.2]
      | ok ev1 =>
        cases hn : registerMt cfg.pipeline "ner" cfg.entity_multitasks with
        | error e =>
          have he := (registerMt_error_iff _ _ _ e).mp hn
          rw [he.2.2]
        | ok ev2 =>
          exfalso
          rcases hbad with ⟨hne, hnin⟩ | ⟨hne, hnin⟩
          · have hcontra : registerMt cfg.pipeline "parser" cfg.parser_multitasks =
                .error .valueError :=
              (registerMt_error_iff _ _ _ _).mpr ⟨hne, hnin, rfl⟩
            rw [hcontra] at hp
            exact absurd hp (by simp)
          · have hcontra : registerMt cfg.pipeline "ner" cfg.entity_multitasks =
                .error .valueError :=
              (registerMt_error_iff _ _ _ _).mpr ⟨hne, hnin, rfl⟩
            rw [hcontra] at hn
            exact absurd hn (by simp)
    have htr : trainRun cfg beh = ((multitaskPhase cfg).1, some PyErr.valueError) := by
      unfold trainRun
      rw [herr]
    rw [htr]
    refine ⟨rfl, ?_, ?_, ?_, ?_⟩
    · intro hm
      obtain ⟨n, o, heq⟩ := multitaskPhase_events cfg _ hm
      exact Event.noConfusion heq
    · intro hm
      obtain ⟨n, o, heq⟩ := multitaskPhase_events cfg _ hm
      exact Event.noConfusion heq
    · intro j hm
      obtain ⟨n, o, heq⟩ := multitaskPhase_events cfg _ hm
      exact Event.noConfusion heq
    · intro loc hm
      obtain ⟨n, o, heq⟩ := multitaskPhase_events cfg _ hm
      exact Event.noConfusion heq
  · intro hin hne o ho
    obtain ⟨hreg, hmem⟩ :=
      registerMt_registers cfg.pipeline "parser" cfg.parser_multitasks hin hne o ho
    cases hn : registerMt cfg.pipeline "ner" cfg.entity_multitasks with
    | error e =>
      have hmt : multitaskPhase cfg =
          ((pySplitComma cfg.parser_multitasks).map
            (fun x => Event.addMultitask "parser" x), some e) := by
        unfold multitaskPhase
        rw [hreg, hn]
      have he := (registerMt_error_iff _ _ _ e).mp hn
      have htr : trainRun cfg beh = ((multitaskPhase cfg).1, some e) := by
        unfold trainRun
        rw [hmt]
      rw [htr, hmt]
      exact hmem
    | ok ev2 =>
      have hmt : multitaskPhase cfg =
          ((pySplitComma cfg.parser_multitasks).map
            (fun x => Event.addMultitask "parser" x) ++ ev2, none) := by
        unfold multitaskPhase
        rw [hreg, hn]
      have h2 : (multitaskPhase cfg).2 = none := by rw [hmt]
      simp only [trainRun, h2]
      by_cases hlp : (loopFrom cfg beh (List.range cfg.n_iter)).2 = true
      · rw [if_pos hlp]
        refine List.mem_append_left _ ?_
        refine List.mem_append_left _ ?_
        refine List.mem_append_left _ ?_
        rw [hmt]
        exact List.mem_append_left _ hmem
      · rw [if_neg hlp]
        refine List.mem_append_left _ ?_
        refine List.mem_append_left _ ?_
        refine List.mem_append_left _ ?_
        refine List.mem_append_left _ ?_
        rw [hmt]
        exact List.mem_append_left _ hmem
  · intro hin hne hpok o ho
    obtain ⟨hreg, hmem⟩ :=
      registerMt_registers cfg.pipeline "ner" cfg.entity_multitasks hin hne o ho
    have hpe : ∃ ev1, registerMt cfg.pipeline "parser" cfg.parser_multitasks = .ok ev1 := by
      rcases hpok with hpp | hpm
      · by_cases hq : cfg.parser_multitasks = ""
        · refine ⟨[], ?_⟩
          unfold registerMt
          rw [if_pos hq]
        · refine ⟨(pySplitComma cfg.parser_multitasks).map
            (fun x => Event.addMultitask "parser" x), ?_⟩
          unfold registerMt
          rw [if_neg hq, if_pos hpp]
      · refine ⟨[], ?_⟩
        unfold registerMt
        rw [if_pos hpm]
    obtain ⟨ev1, hp⟩ := hpe
    have hmt : multitaskPhase cfg =
        (ev1 ++ (pySplitComma cfg.entity_multitasks).map
          (fun x => Event.addMultitask "ner" x), none) := by
      unfold multitaskPhase
      rw [hp, hreg]
    have h2 : (multitaskPhase cfg).2 = none := by rw [hmt]
    simp only [trainRun, h2]
    by_cases hlp : (loopFrom cfg beh (List.range cfg.n_iter)).2 = true
    · rw [if_pos hlp]
      refine List.mem_append_left _ ?_
      refine List.mem_append_left _ ?_
      refine List.mem_append_left _ ?_
      rw [hmt]
      exact List.mem_append_right _ hmem
    · rw [if_neg hlp]
      refine List.mem_append_left _ ?_
      refine List.mem_append_left _ ?_
      refine List.mem_append_left _ ?_
      refine List.mem_append_left _ ?_
      rw [hmt]
      exact List.mem_append_right _ hmem

/-- Claim C7 witness (Scenario B): `--entity-multitasks dep` with pipeline
`tagger,parser` raises the configuration error before any training work. -/
theorem C7_witness :
    ((cfgB.parser_multitasks ≠ "" ∧ "parser" ∉ cfgB.pipeline) ∨
     (cfgB.entity_multitasks ≠ "" ∧ "ner" ∉ cfgB.pipeline)) ∧
    (trainRun cfgB behOk).2 = some PyErr.valueError ∧
    Event.countWords ∉ (trainRun cfgB behOk).1 :=
  ⟨by decide, ((C7_multitask_config cfgB behOk).1 (by decide)).1,
   ((C7_multitask_config cfgB behOk).1 (by decide)).2.1⟩

/-- Claim C2: if the multitask check passed and some epoch of the loop
raises, the `finally` block still saves `model-final` under the averaged
parameters before the exception propagates, and `_collate_best_model` is
never invoked — `model-final` exists, `model-best` does not. -/
theorem C2_finally_saves_final (cfg : TrainConfig) (beh : Nat → EpochBehavior)
    (hmt : (multitaskPhase cfg).2 = none)
    (hraise : ((List.range cfg.n_iter).any (fun i => raisesB (beh i))) = true) :
    (trainRun cfg beh).2 = some PyErr.epochError ∧
    Event.toDisk "model-final" ∈ (trainRun cfg beh).1 ∧
    Event.collateBest ∉ (trainRun cfg beh).1 ∧
    ∃ p, (trainRun cfg beh).1 =
      p ++ [Event.enterAvg, Event.toDisk "model-final", Event.exitAvg] := by
  have hlp : (loopFrom cfg beh (List.range cfg.n_iter)).2 = true := by
    rw [loopFrom_snd]
    exact hraise
  have htr : trainRun cfg beh =
      ((multitaskPhase cfg).1 ++ [Event.countWords, Event.beginTraining] ++
        (loopFrom cfg beh (List.range cfg.n_iter)).1 ++
        [Event.enterAvg, Event.toDisk "model-final", Event.exitAvg],
       some PyErr.epochError) := by
    simp only [trainRun, hmt]
    rw [if_pos hlp]
  rw [htr]
  refine ⟨rfl, by simp, ?_, ⟨_, rfl⟩⟩
  intro hm
  rcases List.mem_append.mp hm with hm | hm
  · rcases List.mem_append.mp hm with hm | hm
    · rcases List.mem_append.mp hm with hm | hm
      · obtain ⟨n, o, heq⟩ := multitaskPhase_events cfg _ hm
        exact Event.noConfusion heq
      · simp at hm
    · exact not_mem_loopFrom cfg beh _ Event.collateBest rfl
        (fun h => Event.noConfusion h) (fun x h => Event.noConfusion h)
        (fun h => Event.noConfusion h) (fun j h => Event.noConfusion h) hm
  · simp at hm

/-- Claim C2 witness (Scenario C): a 5-epoch run whose epoch 2 raises during
the batch-update pass: the run ends in the propagated exception, the final
save is present, the best-model collation is absent. -/
theorem C2_witness :
    (multitaskPhase cfgC).2 = none ∧
    ((List.range cfgC.n_iter).any (fun i => raisesB (behC i))) = true ∧
    (trainRun cfgC behC).2 = some PyErr.epochError ∧
    Event.toDisk "model-final" ∈ (trainRun cfgC behC).1 ∧
    Event.collateBest ∉ (trainRun cfgC behC).1 :=
  ⟨by decide, by decide,
   (C2_finally_saves_final cfgC behC (by decide) (by decide)).1,
   (C2_finally_saves_final cfgC behC (by decide) (by decide)).2.1,
   (C2_finally_saves_final cfgC behC (by decide) (by decide)).2.2.1⟩

/-- Claim C1: whenever `_collate_best_model` completes on a directory listing
with distinct names and a duplicate-free pipeline whose component metric
tuples are pairwise disjoint, each component's metrics in the composite
`meta['accuracy']` equal the lexicographic maximum of that component's
ranking tuple over the epoch candidates (the projected tuple is itself a
candidate tuple and no candidate tuple exceeds it); and on Scenario A
(parser las 0.80 / 0.91 / 0.85 over three epochs) the composer selects
epoch 1's parser state. -/
theorem C1_composite_max :
    (∀ (metaAcc : AccRecord) (entries : List DirEntry) (components : List String)
      (finalAcc : AccRecord) (srcs : List (String × String)),
      (entries.map DirEntry.name).Nodup →
      components.Nodup →
      MetricsDisjoint components →
      collate_best_model metaAcc entries components = .ok (finalAcc, srcs) →
      ∀ c ∈ components, ∃ cands, candidates entries c = .ok cands ∧
        scoreTuple c finalAcc ∈ cands.map Prod.fst ∧
        ∀ t ∈ cands.map Prod.fst, pyListLt (scoreTuple c finalAcc) t = false) ∧
    find_best entriesA "parser" = .ok (some "model1") ∧
    (collate_best_model [] entriesA ["tagger", "parser", "ner"]).toOption.map
      (fun r => lookupAssoc r.2 "parser") = some (some "model1") := by
  refine ⟨?_, by decide, by decide⟩
  intro metaAcc entries components finalAcc srcs hnames hcomps hdisj hok c hc
  cases hb : mapE (bestOf entries) components with
  | error e => simp [collate_best_model, hb] at hok
  | ok bests =>
    simp only [collate_best_model, hb] at hok
    obtain ⟨hfst, hfb⟩ := mapE_bestOf_spec entries components bests hb
    rw [← hfst] at hc
    obtain ⟨p, hp, hpc⟩ := List.mem_map.mp hc
    obtain ⟨l1, l2, hsplit⟩ := List.append_of_mem hp
    have hknd : (bests.map Prod.fst).Nodup := by
      rw [hfst]
      exact hcomps
    have hdisj2 : ∀ q ∈ l2, ∀ m ∈ get_metrics p.1, m ∉ get_metrics q.1 := by
      intro q hq m hm
      have hqB : q ∈ bests := by
        rw [hsplit]
        exact List.mem_append_right _ (List.mem_cons_of_mem _ hq)
      have hqc : q.1 ∈ components := by
        rw [← hfst]
        exact List.mem_map_of_mem _ hqB
      have hpcc : p.1 ∈ components := by
        rw [← hfst]
        exact List.mem_map_of_mem _ hp
      have hne : p.1 ≠ q.1 := by
        intro he
        rw [hsplit] at hknd
        simp only [List.map_append, List.map_cons] at hknd
        have h3 := List.nodup_cons.mp (List.Nodup.of_append_right hknd)
        refine h3.1 ?_
        rw [he]
        exact List.mem_map_of_mem Prod.fst hq
      exact hdisj p.1 hpcc q.1 hqc hne m hm
    rw [hsplit] at hok
    obtain ⟨loc, accs, hploc, hacc, hvals⟩ :=
      foldE_collate_split entries l1 p l2 _ _ hok hdisj2
    have hfbp := hfb p hp
    rw [hploc] at hfbp
    obtain ⟨cands, tw, hcands, hmax⟩ := find_best_ok_some entries p.1 loc hfbp
    have hmemc := pyMax_mem pyPairLt cands (tw, loc) hmax
    obtain ⟨e, heE, hdir, hnf, rec, hrec, hx⟩ :=
      candidates_elem entries p.1 cands hcands (tw, loc) hmemc
    have htw : tw = scoreTuple p.1 rec := congrArg Prod.fst hx
    have hloc2 : loc = e.name := congrArg Prod.snd hx
    have haccs : accs = rec := by
      have h1 : entryAcc entries loc = some rec := by
        rw [hloc2, entryAcc_of_mem entries e hnames heE]
        exact hrec
      rw [hacc] at h1
      exact Option.some.inj h1
    have hst : scoreTuple p.1 finalAcc = scoreTuple p.1 rec := by
      unfold scoreTuple
      apply List.map_congr_left
      intro m hm
      have h1 : lookupAssoc finalAcc m = lookupAssoc accs m := (hvals m hm).1
      unfold getMetric
      rw [h1, haccs]
    refine ⟨cands, ?_, ?_, ?_⟩
    · rw [← hpc]
      exact hcands
    · rw [← hpc, hst, ← htw]
      exact List.mem_map_of_mem Prod.fst hmemc
    · intro t ht
      rw [← hpc, hst, ← htw]
      obtain ⟨xt, hxt, hxteq⟩ := List.mem_map.mp ht
      have h0 := pyMax_not_lt pyPairLt pyPairLt_irrefl pyPairLt_trans pyPairLt_connex
        cands (tw, loc) hmax xt hxt
      rw [pyPairLt_eq] at h0
      by_cases he : tw = xt.1
      · rw [← hxteq, ← he]
        exact lexLt_irrefl tw
      · rw [if_neg he] at h0
        rw [← hxteq]
        exact h0

/-- Claim C1 witness: the Scenario A listing satisfies the hypotheses, its
collation succeeds with the composite accuracy `finalAccA`, and the parser
tuple of the composite is the maximal candidate tuple. -/
theorem C1_witness :
    (entriesA.map DirEntry.name).Nodup ∧
    MetricsDisjoint ["tagger", "parser", "ner"] ∧
    collate_best_model [] entriesA ["tagger", "parser", "ner"] = .ok (finalAccA, srcsA) ∧
    ∃ cands, candidates entriesA "parser" = .ok cands ∧
      scoreTuple "parser" finalAccA ∈ cands.map Prod.fst ∧
      ∀ t ∈ cands.map Prod.fst, pyListLt (scoreTuple "parser" finalAccA) t = false :=
  ⟨by decide, by unfold MetricsDisjoint; decide, by decide,
   C1_composite_max.1 [] entriesA ["tagger", "parser", "ner"] finalAccA srcsA
     (by decide) (by decide) (by unfold MetricsDisjoint; decide) (by decide) "parser"
     (by decide)⟩
